import Mathlib

/-!
# Shallow embedding of `mpdspl.py`

`mpdspl.py` computes named playlists for an MPD music server from a user
rule script and reconciles the server's stored playlists to match.  This
file embeds, as executable Lean definitions, the parts of the program the
verification claims are about:

* the per-cycle track catalog built by `generate_all` (lines 131-132, 137):
  track paths sorted, each assigned its position as its Track Index;
* `GenreAccessor._lookup` (lines 78-82);
* `LabelAccessor.__all_tracks_by_path` and `LabelAccessor._lookup`
  (lines 86-120), including the exception classes its failures raise
  (`KeyError`/`LookupError` vs `AssertionError`) and how
  `DbAccessor.__getitem__` (lines 32-41) surfaces them;
* `PlaylistAccessor.__getitem__` / `__setitem__` (lines 56-74) as a state
  machine over the cache, the frozen-key set and the generated-playlists
  mapping;
* the sync loop of `generate_all` (lines 143-171), with the MPD commands
  `save` / `playlistclear` / `playlistadd` given an explicit remote-state
  semantics.

External collaborators (the MPD server, the filesystem, YAML parsing) are
modelled as inputs: the remote is a map from playlist name to its stored
contents, a label rule file is the directory it sits in plus its parsed
key/value list, and so on.
-/

namespace Mpdspl

/-- A filesystem path relative to the music root, as its list of
components.  `[]` is the root.  `p.parents` in the source (every ancestor
directory of `p`, ending at the root) corresponds to the proper prefixes
of the component list, so "q is p itself or an ancestor of p" is exactly
"q is a prefix of p". -/
abbrev Path := List String

/-! ## Track catalog (`generate_all`, lines 131-132 and 137) -/

/-- Line 131: `all_track_paths = sorted(...)` — the track paths reported
by the server, sorted ascending.  Paths are compared as strings
(lexicographically); `insertionSort` is a stable sort like Python's
`sorted`. -/
def all_track_paths (listing : List String) : List String :=
  listing.insertionSort (· ≤ ·)

/-- The dict comprehension of line 132 builds `{p: i for i, p in
enumerate(all_track_paths)}` by inserting pairs left to right, a later
binding of the same key shadowing an earlier one.  `buildIdx l i m` is
that loop with `i` the index of the head of `l` and `m` the dict built so
far. -/
def buildIdx : List String → ℕ → (String → Option ℕ) → String → Option ℕ
  | [], _, m => m
  | p :: rest, i, m => buildIdx rest (i + 1) (fun q => if q = p then some i else m q)

/-- Line 132: `map_path_to_idx = {p: i for i, p in enumerate(all_track_paths)}`. -/
def map_path_to_idx (paths : List String) : String → Option ℕ :=
  buildIdx paths 0 (fun _ => none)

/-- Line 137: `all_tracks = frozenset(range(len(all_track_paths)))`. -/
def all_tracks (listing : List String) : Finset ℕ :=
  Finset.range (all_track_paths listing).length

/-! ## Genre resolver (`GenreAccessor._lookup`, lines 78-82) -/

/-- `GenreAccessor._lookup`: map each path returned by the server's
`find` query through `map_path_to_idx.get`, dropping paths that do not
map (`get` returns `None`), and collect the rest into a frozenset.  The
function is total: a genre query never raises `LookupError`. -/
def genre_lookup (raw : List String) (p2i : String → Option ℕ) : Finset ℕ :=
  (raw.filterMap p2i).toFinset

/-! ## Label resolver (`LabelAccessor`, lines 86-120) -/

/-- The exceptions `LabelAccessor._lookup` can raise.

* `notFound`: line 119, `raise LookupError(...)` when no rule file was
  found;
* `popitemKey`: line 106, `dict.popitem()` on an empty dict raises
  `KeyError` (a subclass of `LookupError`);
* `ancestorKey`: lines 109/112/114/117, indexing the plain dict
  `all_tracks_by_path` with a missing key raises `KeyError`;
* `assertViolation`: line 107, `assert len(tag_file_content) == 0` raises
  `AssertionError` (not a `LookupError`). -/
inductive LabelErr
  | notFound
  | popitemKey
  | ancestorKey
  | assertViolation
deriving DecidableEq

/-- How an exception escaping `_lookup` surfaces through
`DbAccessor.__getitem__` (lines 32-41): a `LookupError` (which includes
`KeyError` and the explicit `raise LookupError`) is re-raised as
`IndexError`; anything else — here `AssertionError` — propagates
unchanged. -/
inductive Surface
  | indexError
  | assertionError
deriving DecidableEq

/-- Classifies each `LabelErr` by Python exception class: all but the
assertion are `LookupError`s. -/
def LabelErr.isLookupError : LabelErr → Bool
  | .assertViolation => false
  | _ => true

/-- The surface of each `LabelErr` after `DbAccessor.__getitem__`'s
`except LookupError: raise IndexError` conversion. -/
def LabelErr.surface : LabelErr → Surface
  | .assertViolation => .assertionError
  | _ => .indexError

/-- The parsed content of one label rule file: its YAML mapping as an
ordered list of `(key, value)` pairs, each value either `null` or a list
of relative subpaths. -/
abbrev RuleContent := List (String × Option (List Path))

/-- `dict.popitem()` (line 106): removes and returns the last-inserted
pair; on an empty dict it raises `KeyError` (here: `none`). -/
def popitem (c : RuleContent) : Option ((String × Option (List Path)) × RuleContent) :=
  match c.getLast? with
  | none => none
  | some kv => some (kv, c.dropLast)

/-- `LabelAccessor.__all_tracks_by_path` (lines 86-93): for every track
`(p, i)` the loop registers `i` under `p` itself and under every ancestor
directory of `p`, i.e. under every prefix of `p`'s component list; the
resulting plain dict maps each registered path to the frozenset of
indices registered under it, and has no entry for a path with no track
under it. -/
def all_tracks_by_path (tracks : List (Path × ℕ)) : Path → Option (Finset ℕ) :=
  fun q =>
    let l := tracks.filter (fun pi => q.isPrefixOf pi.1)
    if l.isEmpty then none else some (l.map Prod.snd).toFinset

/-- Lines 111-112: `for p in given_list: result -= all_tracks_by_path[tag_file_dir / p]`.
Each subscript is an unguarded dict access: a missing key raises
`KeyError` (`ancestorKey`). -/
def subtractExceptions (atbp : Path → Option (Finset ℕ)) (dir : Path) :
    List Path → Finset ℕ → Except LabelErr (Finset ℕ)
  | [], acc => .ok acc
  | p :: ps, acc =>
    match atbp (dir ++ p) with
    | none => .error .ancestorKey
    | some t => subtractExceptions atbp dir ps (acc \ t)

/-- Lines 116-117: `for p in given_list: result |= all_tracks_by_path[tag_file_dir / p]`. -/
def addExceptions (atbp : Path → Option (Finset ℕ)) (dir : Path) :
    List Path → Finset ℕ → Except LabelErr (Finset ℕ)
  | [], acc => .ok acc
  | p :: ps, acc =>
    match atbp (dir ++ p) with
    | none => .error .ancestorKey
    | some t => addExceptions atbp dir ps (acc ∪ t)

/-- One iteration of the rule-file loop of `_lookup` (lines 101-117),
acting on the running `result` set `acc`: pop the single key of the file,
assert nothing is left, then apply the `all_except` / `none_except`
semantics.  Note the accesses `all_tracks_by_path[tag_file_dir]` on
lines 109 and 114 are unguarded, and an unrecognized key matches neither
`elif` and contributes nothing. -/
def processFile (atbp : Path → Option (Finset ℕ)) (acc : Finset ℕ)
    (dir : Path) (content : RuleContent) : Except LabelErr (Finset ℕ) :=
  match popitem content with
  | none => .error .popitemKey
  | some ((key, given), rest) =>
    if rest = [] then
      if key = "all_except" then
        match atbp dir with
        | none => .error .ancestorKey
        | some s =>
          match given with
          | none => .ok (acc ∪ s)
          | some ps => subtractExceptions atbp dir ps (acc ∪ s)
      else if key = "none_except" then
        match atbp dir with
        | none => .error .ancestorKey
        | some s =>
          match given with
          | none => .ok (acc \ s)
          | some ps => addExceptions atbp dir ps (acc \ s)
      else .ok acc
    else .error .assertViolation

/-- The `for tag_file in music_root.rglob(...)` loop of `_lookup`,
threading the running result set through the files in discovery order;
the first exception aborts the whole lookup. -/
def labelLoop (atbp : Path → Option (Finset ℕ)) :
    List (Path × RuleContent) → Finset ℕ → Except LabelErr (Finset ℕ)
  | [], acc => .ok acc
  | (d, c) :: rest, acc =>
    match processFile atbp acc d c with
    | .error e => .error e
    | .ok acc' => labelLoop atbp rest acc'

/-- `LabelAccessor._lookup` (lines 95-120).  `files` is the list the
filesystem search for `.label.<name>.yml` produced, each entry the rule
file's directory relative to the music root paired with its parsed
content.  `label_found` is true exactly when `files` is nonempty, so an
empty search raises `LookupError` (line 119). -/
def label_lookup (atbp : Path → Option (Finset ℕ))
    (files : List (Path × RuleContent)) : Except LabelErr (Finset ℕ) :=
  if files = [] then .error .notFound
  else labelLoop atbp files ∅

/-- All relative subpaths mentioned in any value of a rule file's
content; used to phrase "every exception subpath listed in the rule
file". -/
def givenPaths (c : RuleContent) : List Path :=
  c.foldr (fun kv acc => kv.2.getD [] ++ acc) []

/-! ## Playlist accessor (`PlaylistAccessor`, lines 50-74) -/

/-- A value held for a playlist name: the rule script may assign either
an unordered set of track indices or an ordered sequence; a remote read
always caches an ordered sequence (line 63 returns a tuple). -/
inductive PValue
  | unordered (s : Finset ℕ)
  | ordered (l : List ℕ)
deriving DecidableEq

/-- The failures of the playlist accessor: `notFound` is the
`LookupError` of line 60 surfaced as `IndexError`; `conflict` is the
`KeyError` of line 73 for a write to a frozen name. -/
inductive PErr
  | notFound
  | conflict
deriving DecidableEq

/-- The remote server's playlist store: each stored playlist name maps to
its ordered list of track paths. -/
abbrev Remote := String → Option (List String)

/-- The mutable state of one `PlaylistAccessor` in one cycle:
`self._cache`, `self.__frozen_keys` and the shared
`generated_playlists` dict. -/
structure PAState where
  cache : String → Option PValue
  frozen : String → Bool
  generated : String → Option PValue

/-- `self.__frozen_keys.add(arg)` (line 69). -/
def freezeKey (f : String → Bool) (k : String) : String → Bool :=
  fun q => if q = k then true else f q

/-- A dict store `d[k] = v`. -/
def storeVal (c : String → Option PValue) (k : String) (v : PValue) :
    String → Option PValue :=
  fun q => if q = k then some v else c q

/-- `PlaylistAccessor.__getitem__` (lines 65-69) on top of
`DbAccessor.__getitem__` (lines 32-41) and `PlaylistAccessor._lookup`
(lines 56-63).  Returns the result, the new state, and whether the
remote was consulted.  A cache hit returns the cached value without a
remote query; a miss queries the remote — absence raises
`LookupError`, re-raised as `IndexError` (`notFound`) — and a success
maps each remote path through `map_path_to_idx.get`, dropping unmapped
paths, and caches the resulting ordered tuple.  The `finally` of
line 68-69 freezes the name on every path, success or failure. -/
def pa_getitem (p2i : String → Option ℕ) (remote : Remote) (s : PAState)
    (arg : String) : Except PErr PValue × PAState × Bool :=
  match s.cache arg with
  | some v => (.ok v, { s with frozen := freezeKey s.frozen arg }, false)
  | none =>
    match remote arg with
    | none => (.error .notFound, { s with frozen := freezeKey s.frozen arg }, true)
    | some raw =>
      let v := PValue.ordered (raw.filterMap p2i)
      (.ok v,
       { s with cache := storeVal s.cache arg v, frozen := freezeKey s.frozen arg },
       true)

/-- `PlaylistAccessor.__setitem__` (lines 71-74): a write to a frozen
name raises `KeyError` (`conflict`) before touching any state; otherwise
the value is recorded in both `generated_playlists` and the cache. -/
def pa_setitem (s : PAState) (key : String) (v : PValue) :
    Except PErr Unit × PAState :=
  if s.frozen key then (.error .conflict, s)
  else (.ok (),
        { s with cache := storeVal s.cache key v,
                 generated := storeVal s.generated key v })

/-- An operation the rule script can perform on the playlist accessor. -/
inductive POp
  | read (name : String)
  | write (name : String) (v : PValue)

/-- The state after one accessor operation (results discarded). -/
def pa_step (p2i : String → Option ℕ) (remote : Remote) (s : PAState) :
    POp → PAState
  | .read n => (pa_getitem p2i remote s n).2.1
  | .write n v => (pa_setitem s n v).2

/-- The state after a sequence of accessor operations. -/
def pa_run (p2i : String → Option ℕ) (remote : Remote) (ops : List POp)
    (s : PAState) : PAState :=
  ops.foldl (pa_step p2i remote) s

/-! ## Sync engine (`generate_all`, lines 143-171) -/

/-- The MPD commands the sync loop issues inside a command list:
`m.save(name)` (saves the current play queue under `name`),
`m.playlistclear(name)` and `m.playlistadd(name, track)`. -/
inductive Cmd
  | save (name : String)
  | playlistclear (name : String)
  | playlistadd (name : String) (track : String)
deriving DecidableEq

/-- The playlist name a command operates on. -/
def Cmd.plName : Cmd → String
  | .save n => n
  | .playlistclear n => n
  | .playlistadd n _ => n

/-- Line 146: `[str(all_track_paths[i]) for i in track_idxs]`; an index
out of range raises `IndexError`, modelled as `none`. -/
def translate (paths : List String) (idxs : List ℕ) : Option (List String) :=
  idxs.mapM (fun i => paths.get? i)

/-- Lines 144-146: an unordered set is sorted ascending by track index
first (line 145, `sorted`); an ordered sequence is translated in the
given order. -/
def normalize (paths : List String) : PValue → Option (List String)
  | .unordered s => translate paths (s.sort (· ≤ ·))
  | .ordered l => translate paths l

/-- The body of the sync loop (lines 146-171) for one generated playlist:
translate the value to track names, fetch the remote contents (a
`CommandError` meaning the playlist does not exist), then pick the
action: create-then-clear for a new empty playlist, clear-if-existing
then append-each for a differing playlist, nothing when equal. -/
def syncOne (paths : List String) (remote : Remote) (name : String)
    (v : PValue) : Option (List Cmd) :=
  (normalize paths v).map fun track_names =>
    let old := remote name
    let old_track_names := old.getD []
    let already_exists := old.isSome
    if already_exists = false ∧ track_names = [] then
      [Cmd.save name, Cmd.playlistclear name]
    else if track_names ≠ old_track_names then
      (if already_exists then [Cmd.playlistclear name] else []) ++
        track_names.map (Cmd.playlistadd name)
    else
      []

/-- The MPD server's reaction to one command.  `save` stores the current
play queue `queue` under the name; `playlistclear` empties the named
playlist; `playlistadd` appends a track, creating the playlist if
absent. -/
def applyCmd (queue : List String) (r : Remote) : Cmd → Remote
  | .save n => fun q => if q = n then some queue else r q
  | .playlistclear n => fun q => if q = n then some [] else r q
  | .playlistadd n x => fun q => if q = n then some ((r n).getD [] ++ [x]) else r q

/-- The remote state after a sequence of commands. -/
def applyCmds (queue : List String) (cmds : List Cmd) (r : Remote) : Remote :=
  cmds.foldl (applyCmd queue) r

/-- The whole sync loop over `generated_playlists.items()`: each
playlist's commands are issued to the server before the next playlist is
examined, so the remote state threads through.  Returns the full command
trace and the final remote state, or `none` if a translation raised
`IndexError`. -/
def syncAll (paths queue : List String) :
    List (String × PValue) → Remote → Option (List Cmd × Remote)
  | [], r => some ([], r)
  | (n, v) :: rest, r =>
    match syncOne paths r n v with
    | none => none
    | some cmds =>
      match syncAll paths queue rest (applyCmds queue cmds r) with
      | none => none
      | some (cs, r') => some (cmds ++ cs, r')

/-! ## Concrete states used by the witnesses -/

/-- A p2i map with no tracks. -/
def p2iNone : String → Option ℕ := fun _ => none

/-- A remote with no stored playlists. -/
def remoteNone : Remote := fun _ => none

/-- A fresh accessor state: empty cache, nothing frozen, nothing
generated. -/
def paStateFresh : PAState :=
  { cache := fun _ => none, frozen := fun _ => false, generated := fun _ => none }

/-- An accessor state in which only the name `"a"` is frozen. -/
def paStateFrozenA : PAState :=
  { cache := fun _ => none, frozen := fun q => q == "a", generated := fun _ => none }

/-! ## Playlist accessor lemmas -/

/-- A read always freezes the name it read, on the cache-hit, remote-hit
and remote-miss paths alike (the `finally` of lines 68-69). -/
theorem pa_getitem_frozen_self (p2i : String → Option ℕ) (remote : Remote)
    (s : PAState) (arg : String) :
    ((pa_getitem p2i remote s arg).2.1).frozen arg = true := by
  unfold pa_getitem
  cases s.cache arg <;> cases remote arg <;> simp [freezeKey]

/-- No accessor operation ever unfreezes a name. -/
theorem pa_step_frozen_mono (p2i : String → Option ℕ) (remote : Remote)
    (s : PAState) (op : POp) (k : String) (h : s.frozen k = true) :
    (pa_step p2i remote s op).frozen k = true := by
  cases op with
  | read n =>
    unfold pa_step pa_getitem
    cases hc : s.cache n <;> cases hr : remote n <;> simp [hc, hr, freezeKey, h]
  | write n v =>
    unfold pa_step pa_setitem
    by_cases hf : s.frozen n <;> simp [hf, h]

/-- No sequence of accessor operations ever unfreezes a name. -/
theorem pa_run_frozen_mono (p2i : String → Option ℕ) (remote : Remote)
    (ops : List POp) : ∀ (s : PAState) (k : String), s.frozen k = true →
    (pa_run p2i remote ops s).frozen k = true := by
  induction ops with
  | nil => intro s k h; exact h
  | cons op rest ih =>
    intro s k h
    simp only [pa_run, List.foldl_cons]
    exact ih _ _ (pa_step_frozen_mono p2i remote s op k h)

/-- **C1**: for every playlist name in one cycle, a write to a
not-yet-frozen name succeeds and does not itself freeze anything (so the
name may be written any number of times before its first read); a write
to a frozen name fails with Conflict and leaves the state untouched; a
read freezes the name regardless of whether it succeeds (cache hit or
remote hit) or fails (remote miss); and the frozen state is preserved by
every subsequent sequence of accessor operations of the cycle. -/
theorem playlist_write_once_frozen_invariant (p2i : String → Option ℕ)
    (remote : Remote) (s s' : PAState) (name : String) (v v' : PValue)
    (ops : List POp) (h : s.frozen name = false) (h' : s'.frozen name = true) :
    (pa_setitem s name v).1 = .ok () ∧
    (pa_setitem s name v).2.frozen = s.frozen ∧
    pa_setitem s' name v' = (.error .conflict, s') ∧
    ((pa_getitem p2i remote s name).2.1).frozen name = true ∧
    ((pa_getitem p2i remote s' name).2.1).frozen name = true ∧
    (pa_run p2i remote ops s').frozen name = true := by
  refine ⟨?_, ?_, ?_, ?_, ?_, ?_⟩
  · simp [pa_setitem, h]
  · simp [pa_setitem, h]
  · simp [pa_setitem, h']
  · exact pa_getitem_frozen_self p2i remote s name
  · exact pa_getitem_frozen_self p2i remote s' name
  · exact pa_run_frozen_mono p2i remote ops s' name h'

/-- Witness for **C1** at concrete inputs: a fresh state (name `"a"` not
frozen) and a state in which `"a"` is frozen. -/
theorem playlist_write_once_frozen_invariant_witness :
    paStateFresh.frozen "a" = false ∧ paStateFrozenA.frozen "a" = true ∧
    ((pa_setitem paStateFresh "a" (PValue.ordered [0])).1 = .ok () ∧
     (pa_setitem paStateFresh "a" (PValue.ordered [0])).2.frozen = paStateFresh.frozen ∧
     pa_setitem paStateFrozenA "a" (PValue.unordered ∅) =
       (.error .conflict, paStateFrozenA) ∧
     ((pa_getitem p2iNone remoteNone paStateFresh "a").2.1).frozen "a" = true ∧
     ((pa_getitem p2iNone remoteNone paStateFrozenA "a").2.1).frozen "a" = true ∧
     (pa_run p2iNone remoteNone [POp.read "b"] paStateFrozenA).frozen "a" = true) :=
  ⟨rfl, rfl,
   playlist_write_once_frozen_invariant p2iNone remoteNone paStateFresh paStateFrozenA
     "a" (PValue.ordered [0]) (PValue.unordered ∅) [POp.read "b"] rfl rfl⟩

/-- **C4**: a read of a name followed by a write of any value to the
same name fails with Conflict, and the failed write changes neither the
cached value of that name nor the generated-playlists mapping. -/
theorem playlist_read_write_conflict_unchanged (p2i : String → Option ℕ)
    (remote : Remote) (s : PAState) (name : String) (v : PValue) :
    (pa_setitem (pa_getitem p2i remote s name).2.1 name v).1 = .error .conflict ∧
    (pa_setitem (pa_getitem p2i remote s name).2.1 name v).2.cache =
      ((pa_getitem p2i remote s name).2.1).cache ∧
    (pa_setitem (pa_getitem p2i remote s name).2.1 name v).2.generated =
      ((pa_getitem p2i remote s name).2.1).generated := by
  have hf := pa_getitem_frozen_self p2i remote s name
  refine ⟨?_, ?_, ?_⟩ <;> simp [pa_setitem, hf]

/-- **C5**: writing `v` to a name not yet read and then reading the same
name returns `v` unchanged, and the read consults no remote (the third
component of `pa_getitem` records whether the remote was queried). -/
theorem playlist_write_then_read_cached (p2i : String → Option ℕ)
    (remote : Remote) (s : PAState) (name : String) (v : PValue)
    (h : s.frozen name = false) :
    (pa_getitem p2i remote (pa_setitem s name v).2 name).1 = .ok v ∧
    (pa_getitem p2i remote (pa_setitem s name v).2 name).2.2 = false := by
  simp [pa_setitem, h, pa_getitem, storeVal]

/-- Witness for **C5** at a fresh state. -/
theorem playlist_write_then_read_cached_witness :
    paStateFresh.frozen "a" = false ∧
    ((pa_getitem p2iNone remoteNone (pa_setitem paStateFresh "a" (PValue.ordered [1, 0])).2 "a").1 =
       .ok (PValue.ordered [1, 0]) ∧
     (pa_getitem p2iNone remoteNone (pa_setitem paStateFresh "a" (PValue.ordered [1, 0])).2 "a").2.2 =
       false) :=
  ⟨rfl, playlist_write_then_read_cached p2iNone remoteNone paStateFresh "a"
     (PValue.ordered [1, 0]) rfl⟩

/-! ## Track catalog lemmas -/

/-- A name absent from the remaining paths is resolved by the dict built
so far: later insertions only shadow their own key. -/
theorem buildIdx_not_mem : ∀ (l : List String) (i : ℕ) (m : String → Option ℕ)
    (q : String), q ∉ l → buildIdx l i m q = m q := by
  intro l
  induction l with
  | nil => intro i m q _; rfl
  | cons p rest ih =>
    intro i m q hq
    simp only [List.mem_cons, not_or] at hq
    simp only [buildIdx]
    rw [ih _ _ _ hq.2]
    simp [hq.1]

/-- On a duplicate-free list, the dict comprehension maps the element at
position `j` to index `i + j`, where `i` is the index of the head. -/
theorem buildIdx_get : ∀ (l : List String), l.Nodup → ∀ (j : ℕ) (hj : j < l.length)
    (i : ℕ) (m : String → Option ℕ), buildIdx l i m (l.get ⟨j, hj⟩) = some (i + j) := by
  intro l
  induction l with
  | nil => intro _ j hj; exact absurd hj (by simp)
  | cons p rest ih =>
    intro hnd j hj i m
    obtain ⟨hp, hrest⟩ := List.nodup_cons.mp hnd
    cases j with
    | zero =>
      have hgz : (p :: rest).get ⟨0, hj⟩ = p := rfl
      rw [hgz]
      simp only [buildIdx]
      rw [buildIdx_not_mem rest _ _ p hp]
      simp
    | succ j' =>
      have hgs : (p :: rest).get ⟨j' + 1, hj⟩ = rest.get ⟨j', by simpa using hj⟩ := rfl
      rw [hgs]
      simp only [buildIdx]
      rw [ih hrest j' (by simpa using hj) (i + 1) _]
      congr 1
      omega

/-- **C9**: within one cycle, Track Indices are assigned by sorting all
known track paths lexicographically as strings: the path at position `i`
of the sorted order is mapped to index `i` by `map_path_to_idx`, and
`all_tracks` is exactly `{0, ..., n-1}` for `n` the number of known
tracks. -/
theorem track_index_assignment (listing : List String) (i : ℕ) (p : String)
    (hnd : listing.Nodup) (hp : (all_track_paths listing).get? i = some p) :
    List.Sorted (· ≤ ·) (all_track_paths listing) ∧
    map_path_to_idx (all_track_paths listing) p = some i ∧
    all_tracks listing = Finset.range listing.length := by
  have hnd' : (all_track_paths listing).Nodup :=
    ((List.perm_insertionSort (· ≤ ·) listing).symm).nodup hnd
  obtain ⟨hi, hget⟩ := List.get?_eq_some.mp hp
  refine ⟨List.sorted_insertionSort _ _, ?_, ?_⟩
  · have hmap := buildIdx_get (all_track_paths listing) hnd' i hi 0 (fun _ => none)
    rw [hget] at hmap
    simpa [map_path_to_idx] using hmap
  · simp [all_tracks, all_track_paths, List.length_insertionSort]

/-- Witness for **C9**: the listing `["b", "a"]` sorts to `["a", "b"]`,
whose position-1 path `"b"` receives index 1. -/
theorem track_index_assignment_witness :
    (["b", "a"] : List String).Nodup ∧
    (all_track_paths ["b", "a"]).get? 1 = some "b" ∧
    (List.Sorted (· ≤ ·) (all_track_paths ["b", "a"]) ∧
     map_path_to_idx (all_track_paths ["b", "a"]) "b" = some 1 ∧
     all_tracks ["b", "a"] = Finset.range (["b", "a"] : List String).length) :=
  ⟨by decide,
   by simp [all_track_paths, List.insertionSort, List.orderedInsert]; decide,
   track_index_assignment ["b", "a"] 1 "b" (by decide)
     (by simp [all_track_paths, List.insertionSort, List.orderedInsert]; decide)⟩

/-! ## Label resolver lemmas -/

/-- `popitem` on a one-key dict returns that pair and leaves the dict
empty. -/
theorem popitem_singleton (kv : String × Option (List Path)) :
    popitem [kv] = some (kv, []) := rfl

/-- Every subpath in some value of the content appears in
`givenPaths`. -/
theorem mem_givenPaths : ∀ (c : RuleContent) (kv : String × Option (List Path)),
    kv ∈ c → ∀ q ∈ kv.2.getD [], q ∈ givenPaths c := by
  intro c
  induction c with
  | nil => intro kv hkv; simp at hkv
  | cons a as ih =>
    intro kv hkv q hq
    simp only [givenPaths, List.foldr_cons]
    rcases List.mem_cons.mp hkv with h | h
    · subst h; exact List.mem_append_left _ hq
    · exact List.mem_append_right _ (ih kv h q hq)

/-- When every listed exception subpath is present in the ancestor
index, the subtraction loop completes without raising. -/
theorem subtractExceptions_ok (atbp : Path → Option (Finset ℕ)) (dir : Path) :
    ∀ (ps : List Path) (acc : Finset ℕ),
      (∀ q ∈ ps, (atbp (dir ++ q)).isSome = true) →
      ∃ res, subtractExceptions atbp dir ps acc = .ok res := by
  intro ps
  induction ps with
  | nil => intro acc _; exact ⟨acc, rfl⟩
  | cons p ps ih =>
    intro acc hall
    have hp := hall p (List.mem_cons_self p ps)
    cases h : atbp (dir ++ p) with
    | none => rw [h] at hp; simp at hp
    | some t =>
      simp only [subtractExceptions, h]
      exact ih (acc \ t) (fun q hq => hall q (List.mem_cons_of_mem p hq))

/-- When every listed exception subpath is present in the ancestor
index, the union loop completes without raising. -/
theorem addExceptions_ok (atbp : Path → Option (Finset ℕ)) (dir : Path) :
    ∀ (ps : List Path) (acc : Finset ℕ),
      (∀ q ∈ ps, (atbp (dir ++ q)).isSome = true) →
      ∃ res, addExceptions atbp dir ps acc = .ok res := by
  intro ps
  induction ps with
  | nil => intro acc _; exact ⟨acc, rfl⟩
  | cons p ps ih =>
    intro acc hall
    have hp := hall p (List.mem_cons_self p ps)
    cases h : atbp (dir ++ p) with
    | none => rw [h] at hp; simp at hp
    | some t =>
      simp only [addExceptions, h]
      exact ih (acc ∪ t) (fun q hq => hall q (List.mem_cons_of_mem p hq))

/-- If the rule file's directory and all its listed exception subpaths
are present in the ancestor index, processing the file cannot raise the
ancestor `KeyError` (it may still raise `popitemKey` or the assertion,
which are different errors). -/
theorem processFile_no_ancestor_err (atbp : Path → Option (Finset ℕ)) (dir : Path)
    (c : RuleContent) (acc : Finset ℕ) (hdir : (atbp dir).isSome = true)
    (hsub : ∀ q ∈ givenPaths c, (atbp (dir ++ q)).isSome = true) :
    processFile atbp acc dir c ≠ .error .ancestorKey := by
  rcases hpi : popitem c with _ | ⟨⟨key, given⟩, rest⟩
  · simp [processFile, hpi]
  · obtain ⟨s, hs⟩ := Option.isSome_iff_exists.mp hdir
    have hlast : c.getLast? = some (key, given) := by
      unfold popitem at hpi
      cases hgl : c.getLast? with
      | none => rw [hgl] at hpi; simp at hpi
      | some kv =>
        rw [hgl] at hpi
        simp only [Option.some.injEq, Prod.mk.injEq] at hpi
        rw [hpi.1]
    have hgiven : ∀ q ∈ given.getD [], (atbp (dir ++ q)).isSome = true :=
      fun q hq => hsub q (mem_givenPaths c (key, given) (List.mem_of_mem_getLast? hlast) q hq)
    simp only [processFile, hpi]
    by_cases hr : rest = []
    · simp only [if_pos hr]
      by_cases hk1 : key = "all_except"
      · simp only [if_pos hk1, hs]
        cases given with
        | none => simp
        | some ps =>
          obtain ⟨res, hres⟩ := subtractExceptions_ok atbp dir ps (acc ∪ s) hgiven
          simp [hres]
      · by_cases hk2 : key = "none_except"
        · simp only [if_neg hk1, if_pos hk2, hs]
          cases given with
          | none => simp
          | some ps =>
            obtain ⟨res, hres⟩ := addExceptions_ok atbp dir ps (acc \ s) hgiven
            simp [hres]
        · simp [if_neg hk1, if_neg hk2]
    · simp [if_neg hr]

/-- If every rule file's directory and listed exception subpaths are
present in the ancestor index, the whole rule-file loop cannot raise the
ancestor `KeyError`. -/
theorem labelLoop_no_ancestor_err (atbp : Path → Option (Finset ℕ)) :
    ∀ (files : List (Path × RuleContent)) (acc : Finset ℕ),
      (∀ dc ∈ files, (atbp dc.1).isSome = true ∧
         ∀ q ∈ givenPaths dc.2, (atbp (dc.1 ++ q)).isSome = true) →
      labelLoop atbp files acc ≠ .error .ancestorKey := by
  intro files
  induction files with
  | nil => intro acc _; simp [labelLoop]
  | cons dc rest ih =>
    intro acc hall
    obtain ⟨d, c⟩ := dc
    obtain ⟨hd, hs⟩ := hall (d, c) (List.mem_cons_self _ _)
    have hpf := processFile_no_ancestor_err atbp d c acc hd hs
    simp only [labelLoop]
    cases hpc : processFile atbp acc d c with
    | error e =>
      rw [hpc] at hpf
      intro hcontra
      simp only [Except.error.injEq] at hcontra
      exact hpf (by rw [hcontra])
    | ok acc' => exact ih acc' (fun dc' hdc => hall dc' (List.mem_cons_of_mem _ hdc))

/-- **C2**: with exactly one rule file for the label, at directory `D`:
`all_except: [x, y]` resolves to `AncestorIndex[D] \ AncestorIndex[D/x]
\ AncestorIndex[D/y]`; `none_except: [x]` resolves to exactly
`AncestorIndex[D/x]`; a null exception list contributes nothing, leaving
pure "all under D" and "nothing", respectively. -/
theorem label_single_rule_semantics (atbp : Path → Option (Finset ℕ)) (D x y : Path)
    (sD sx sy : Finset ℕ) (hD : atbp D = some sD) (hx : atbp (D ++ x) = some sx)
    (hy : atbp (D ++ y) = some sy) :
    label_lookup atbp [(D, [("all_except", some [x, y])])] = .ok ((sD \ sx) \ sy) ∧
    label_lookup atbp [(D, [("none_except", some [x])])] = .ok sx ∧
    label_lookup atbp [(D, [("all_except", none)])] = .ok sD ∧
    label_lookup atbp [(D, [("none_except", none)])] = .ok (∅ : Finset ℕ) := by
  refine ⟨?_, ?_, ?_, ?_⟩ <;>
    simp [label_lookup, labelLoop, processFile, popitem_singleton,
          subtractExceptions, addExceptions, hD, hx, hy]

/-- The concrete library used by the label witnesses: two tracks under
directory `a`, one under directory `b`. -/
def tracksW : List (Path × ℕ) := [(["a", "t1"], 0), (["a", "t2"], 1), (["b", "t3"], 2)]

/-- The ancestor index of `tracksW`. -/
def atbpW : Path → Option (Finset ℕ) := all_tracks_by_path tracksW

/-- Witness for **C2** on the concrete library `tracksW`, with the rule
files at the music root. -/
theorem label_single_rule_semantics_witness :
    atbpW [] = some {0, 1, 2} ∧ atbpW ([] ++ ["a"]) = some {0, 1} ∧
    atbpW ([] ++ ["b"]) = some {2} ∧
    (label_lookup atbpW [([], [("all_except", some [["a"], ["b"]])])] =
       .ok ((({0, 1, 2} : Finset ℕ) \ {0, 1}) \ {2}) ∧
     label_lookup atbpW [([], [("none_except", some [["a"]])])] = .ok ({0, 1} : Finset ℕ) ∧
     label_lookup atbpW [([], [("all_except", none)])] = .ok ({0, 1, 2} : Finset ℕ) ∧
     label_lookup atbpW [([], [("none_except", none)])] = .ok (∅ : Finset ℕ)) :=
  ⟨by decide, by decide, by decide,
   label_single_rule_semantics atbpW [] ["a"] ["b"] {0, 1, 2} {0, 1} {2}
     (by decide) (by decide) (by decide)⟩

/-- **C6**: a genre matched by no track (the `find` query returns no
entries) resolves to the empty track set — `genre_lookup` is total, so
a genre lookup can never raise NotFound — while a label name whose
filesystem search finds no rule file always raises NotFound. -/
theorem genre_empty_label_not_found (p2i : String → Option ℕ)
    (atbp : Path → Option (Finset ℕ)) :
    genre_lookup [] p2i = (∅ : Finset ℕ) ∧
    label_lookup atbp [] = .error .notFound := by
  constructor
  · simp [genre_lookup]
  · simp [label_lookup]

/-- An ancestor index that answers the empty set everywhere; used by the
counterexample, where the rule content is what matters. -/
def atbpEmpty : Path → Option (Finset ℕ) := fun _ => some ∅

/-- Counterexample to **C8** as stated: a rule file with zero top-level
keys does not fail the defensive assertion.  `dict.popitem()` on the
empty dict raises `KeyError`, which is a `LookupError`, so
`DbAccessor.__getitem__` surfaces it as `IndexError` — exactly the same
surface as the NotFound condition, not an `AssertionError`. -/
theorem label_zero_key_not_assertion :
    label_lookup atbpEmpty [([], [])] = .error .popitemKey ∧
    LabelErr.popitemKey.isLookupError = true ∧
    LabelErr.surface .popitemKey = LabelErr.surface .notFound ∧
    LabelErr.surface .popitemKey ≠ Surface.assertionError :=
  ⟨rfl, rfl, rfl, by decide⟩

/-- **C8 amended**: a rule file with more than one top-level key fails
the defensive assertion of line 107, a fatal condition distinct from
NotFound; a rule file with zero top-level keys instead raises a
`KeyError` from `popitem`, a lookup error that is surfaced the same way
as NotFound (as `IndexError`), not as an assertion. -/
theorem label_malformed_rule_file (atbp : Path → Option (Finset ℕ))
    (D D' : Path) (c : RuleContent) (h2 : 2 ≤ c.length) :
    label_lookup atbp [(D, c)] = .error .assertViolation ∧
    LabelErr.surface .assertViolation ≠ LabelErr.surface .notFound ∧
    label_lookup atbp [(D', [])] = .error .popitemKey ∧
    LabelErr.popitemKey.isLookupError = true ∧
    LabelErr.surface .popitemKey = LabelErr.surface .notFound := by
  have hne : c ≠ [] := by
    intro h; rw [h] at h2; simp at h2
  obtain ⟨kv, hkv⟩ : ∃ kv, c.getLast? = some kv := by
    cases h : c.getLast? with
    | none => exact absurd (List.getLast?_eq_none_iff.mp h) hne
    | some kv => exact ⟨kv, rfl⟩
  have hdrop : ¬(c.dropLast = []) := by
    intro h
    have hlen := List.length_dropLast c
    rw [h] at hlen
    simp at hlen
    omega
  obtain ⟨key, given⟩ := kv
  have hpi : popitem c = some ((key, given), c.dropLast) := by
    simp [popitem, hkv]
  refine ⟨?_, by decide, rfl, rfl, rfl⟩
  simp [label_lookup, labelLoop, processFile, hpi, hdrop]

/-- Witness for **C8 amended** with a concrete two-key rule file. -/
theorem label_malformed_rule_file_witness :
    2 ≤ ([("all_except", none), ("none_except", none)] : RuleContent).length ∧
    (label_lookup atbpEmpty [([], [("all_except", none), ("none_except", none)])] =
       .error .assertViolation ∧
     LabelErr.surface .assertViolation ≠ LabelErr.surface .notFound ∧
     label_lookup atbpEmpty [(["z"], [])] = .error .popitemKey ∧
     LabelErr.popitemKey.isLookupError = true ∧
     LabelErr.surface .popitemKey = LabelErr.surface .notFound) :=
  ⟨by decide,
   label_malformed_rule_file atbpEmpty [] ["z"]
     [("all_except", none), ("none_except", none)] (by decide)⟩

/-- **C10**: the ancestor-index accesses of label resolution are
unguarded plain-dict lookups.  If a rule file's own directory has no
tracks under it, or a listed exception subpath has no tracks under it,
resolution raises the `KeyError` (`ancestorKey`, a lookup error) rather
than treating the empty subtree as the empty set; and under the
precondition that every referenced directory and exception subpath has
at least one track, that error is unreachable for the whole lookup. -/
theorem label_ancestor_access_unguarded (atbp : Path → Option (Finset ℕ))
    (D D2 p : Path) (key key2 : String) (g : Option (List Path)) (s2 : Finset ℕ)
    (files : List (Path × RuleContent))
    (hkey : key = "all_except" ∨ key = "none_except") (hD : atbp D = none)
    (hkey2 : key2 = "all_except" ∨ key2 = "none_except")
    (hD2 : atbp D2 = some s2) (hp : atbp (D2 ++ p) = none)
    (hpre : ∀ dc ∈ files, (atbp dc.1).isSome = true ∧
              ∀ q ∈ givenPaths dc.2, (atbp (dc.1 ++ q)).isSome = true) :
    label_lookup atbp [(D, [(key, g)])] = .error .ancestorKey ∧
    label_lookup atbp [(D2, [(key2, some [p])])] = .error .ancestorKey ∧
    LabelErr.ancestorKey.isLookupError = true ∧
    label_lookup atbp files ≠ .error .ancestorKey := by
  refine ⟨?_, ?_, rfl, ?_⟩
  · rcases hkey with h | h <;> subst h <;>
      simp [label_lookup, labelLoop, processFile, popitem_singleton, hD]
  · rcases hkey2 with h | h <;> subst h <;>
      simp [label_lookup, labelLoop, processFile, popitem_singleton, hD2, hp,
            subtractExceptions, addExceptions]
  · unfold label_lookup
    by_cases hf : files = []
    · simp [hf]
    · simp only [if_neg hf]
      exact labelLoop_no_ancestor_err atbp files ∅ hpre

/-- Witness for **C10** on the concrete library `tracksW`: directory
`b/c` has no tracks, the root has tracks, subpath `c` of the root has no
tracks, and a well-referenced rule file list triggers no ancestor
error. -/
theorem label_ancestor_access_unguarded_witness :
    ("all_except" = "all_except" ∨ "all_except" = "none_except") ∧
    atbpW ["b", "c"] = none ∧
    ("none_except" = "all_except" ∨ "none_except" = "none_except") ∧
    atbpW [] = some {0, 1, 2} ∧ atbpW ([] ++ ["c"]) = none ∧
    (label_lookup atbpW [(["b", "c"], [("all_except", none)])] = .error .ancestorKey ∧
     label_lookup atbpW [([], [("none_except", some [["c"]])])] = .error .ancestorKey ∧
     LabelErr.ancestorKey.isLookupError = true ∧
     label_lookup atbpW [([], [("all_except", some [["a"]])])] ≠ .error .ancestorKey) :=
  ⟨Or.inl rfl, by decide, Or.inr rfl, by decide, by decide,
   label_ancestor_access_unguarded atbpW ["b", "c"] [] ["c"] "all_except" "none_except"
     none {0, 1, 2} [([], [("all_except", some [["a"]])])]
     (Or.inl rfl) (by decide) (Or.inr rfl) (by decide) (by decide) (by decide)⟩

/-! ## Sync engine lemmas -/

/-- A remote in which only `"a"` is stored, holding a track not equal to
what the witnesses compute. -/
def remoteX : Remote := fun q => if q = "a" then some ["x"] else none

/-- A remote in which `"a"` is stored and empty. -/
def remoteEmptyA : Remote := fun q => if q = "a" then some [] else none

/-- A command leaves every playlist it does not name untouched. -/
theorem applyCmd_ne (queue : List String) (r : Remote) (c : Cmd) (q : String)
    (h : q ≠ c.plName) : applyCmd queue r c q = r q := by
  cases c <;> simp [Cmd.plName] at h <;> simp [applyCmd, h]

/-- A command list leaves every playlist it does not name untouched. -/
theorem applyCmds_ne (queue : List String) : ∀ (cmds : List Cmd) (r : Remote)
    (q : String), (∀ c ∈ cmds, q ≠ c.plName) →
    applyCmds queue cmds r q = r q := by
  intro cmds
  induction cmds with
  | nil => intro r q _; rfl
  | cons c cs ih =>
    intro r q hq
    have hstep : applyCmds queue (c :: cs) r q = applyCmds queue cs (applyCmd queue r c) q := rfl
    rw [hstep, ih (applyCmd queue r c) q (fun c' hc' => hq c' (List.mem_cons_of_mem c hc'))]
    exact applyCmd_ne queue r c q (hq c (List.mem_cons_self c cs))

/-- Every command the sync body issues for a playlist names that
playlist. -/
theorem syncOne_plName (paths : List String) (r : Remote) (n : String)
    (v : PValue) (cmds : List Cmd) (h : syncOne paths r n v = some cmds) :
    ∀ c ∈ cmds, c.plName = n := by
  unfold syncOne at h
  cases hn : normalize paths v with
  | none => rw [hn] at h; simp at h
  | some tn =>
    rw [hn] at h
    simp only [Option.map_some', Option.some.injEq] at h
    intro c hc
    split at h
    · rw [← h] at hc
      rcases List.mem_cons.mp hc with he | hc'
      · rw [he]; rfl
      · rcases List.mem_cons.mp hc' with he | hc''
        · rw [he]; rfl
        · simp at hc''
    · split at h
      · rw [← h] at hc
        rcases List.mem_append.mp hc with hl | hr
        · rcases hiso : (r n).isSome with _ | _ <;> rw [hiso] at hl
          · simp at hl
          · simp only [if_pos] at hl
            rcases List.mem_cons.mp hl with he | hc''
            · rw [he]; rfl
            · simp at hc''
        · obtain ⟨x, _, hx⟩ := List.mem_map.mp hr
          rw [← hx]; rfl
      · rw [← h] at hc; simp at hc

/-- Appending tracks one by one to an existing playlist appends them in
order. -/
theorem applyCmds_add_append (queue : List String) (n : String) :
    ∀ (tns : List String) (r : Remote) (base : List String), r n = some base →
    applyCmds queue (tns.map (Cmd.playlistadd n)) r n = some (base ++ tns) := by
  intro tns
  induction tns with
  | nil => intro r base hb; simpa [applyCmds] using hb
  | cons x tns ih =>
    intro r base hb
    simp only [List.map_cons, applyCmds, List.foldl_cons]
    have hr' : (applyCmd queue r (Cmd.playlistadd n x)) n = some (base ++ [x]) := by
      simp [applyCmd, hb]
    have hstep := ih (applyCmd queue r (Cmd.playlistadd n x)) (base ++ [x]) hr'
    simpa [applyCmds, List.append_assoc] using hstep

/-- After applying the commands the sync body issues for a playlist, the
remote stores exactly its normalized track names. -/
theorem syncOne_apply_self (paths queue : List String) (r : Remote) (n : String)
    (v : PValue) (tn : List String) (cmds : List Cmd)
    (hn : normalize paths v = some tn) (h : syncOne paths r n v = some cmds) :
    applyCmds queue cmds r n = some tn := by
  unfold syncOne at h
  rw [hn] at h
  simp only [Option.map_some', Option.some.injEq] at h
  split at h
  · rename_i hcond
    rw [← h]
    simp [applyCmds, applyCmd, hcond.2]
  · rename_i hcond
    split at h
    · rename_i hne
      cases hrn : r n with
      | some old =>
        rw [hrn] at h
        simp only [Option.isSome_some, if_pos] at h
        rw [← h]
        simp only [applyCmds, List.foldl_cons]
        have hcl : (applyCmd queue r (Cmd.playlistclear n)) n = some [] := by
          simp [applyCmd]
        simpa using applyCmds_add_append queue n tn _ [] hcl
      | none =>
        rw [hrn] at h
        simp only [Option.isSome_none, Bool.false_eq_true, if_neg, not_false_iff,
          List.nil_append] at h
        have htn : tn ≠ [] := by
          intro he
          exact hcond ⟨by rw [hrn]; rfl, he⟩
        cases tn with
        | nil => exact absurd rfl htn
        | cons x rest =>
          rw [← h]
          simp only [List.map_cons, applyCmds, List.foldl_cons]
          have hx : (applyCmd queue r (Cmd.playlistadd n x)) n = some [x] := by
            simp [applyCmd, hrn]
          simpa using applyCmds_add_append queue n rest _ [x] hx
    · rename_i hne
      have heq : tn = (r n).getD [] := not_ne_iff.mp hne
      rw [← h]
      cases hrn : r n with
      | none =>
        exfalso
        rw [hrn] at heq
        exact hcond ⟨by rw [hrn]; rfl, by simpa using heq⟩
      | some old =>
        rw [hrn] at heq
        simp only [Option.getD_some] at heq
        simp [applyCmds, hrn, heq]

/-- A playlist whose remote contents already equal its normalized value
is left alone by the sync body. -/
theorem syncOne_noop (paths : List String) (r : Remote) (n : String) (v : PValue)
    (tn : List String) (hn : normalize paths v = some tn) (hr : r n = some tn) :
    syncOne paths r n v = some [] := by
  simp [syncOne, hn, hr]

/-- The sync loop never touches a playlist name that is not among the
generated names. -/
theorem syncAll_preserves_other (paths queue : List String) :
    ∀ (gps : List (String × PValue)) (r : Remote) (cs : List Cmd) (r' : Remote)
      (q : String), syncAll paths queue gps r = some (cs, r') →
      q ∉ gps.map Prod.fst → r' q = r q := by
  intro gps
  induction gps with
  | nil =>
    intro r cs r' q h _
    simp only [syncAll, Option.some.injEq, Prod.mk.injEq] at h
    rw [← h.2]
  | cons hd rest ih =>
    intro r cs r' q h hq
    obtain ⟨n, v⟩ := hd
    simp only [List.map_cons, List.mem_cons, not_or] at hq
    simp only [syncAll] at h
    cases hso : syncOne paths r n v with
    | none => simp only [hso] at h; exact Option.noConfusion h
    | some cmds0 =>
      simp only [hso] at h
      cases hrec : syncAll paths queue rest (applyCmds queue cmds0 r) with
      | none => simp only [hrec] at h; exact Option.noConfusion h
      | some pr =>
        obtain ⟨cs', r''⟩ := pr
        simp only [hrec, Option.some.injEq, Prod.mk.injEq] at h
        rw [← h.2]
        have hother := ih (applyCmds queue cmds0 r) cs' r'' q hrec (by simpa using hq.2)
        rw [hother]
        exact applyCmds_ne queue cmds0 r q
          (fun c hc => by rw [syncOne_plName paths r n v cmds0 hso c hc]; exact hq.1)

/-- After a successful sync run, the remote stores, for every generated
playlist, exactly its normalized track names. -/
theorem syncAll_run_establishes (paths queue : List String) :
    ∀ (gps : List (String × PValue)) (r : Remote) (cs : List Cmd) (r' : Remote),
      (gps.map Prod.fst).Nodup → syncAll paths queue gps r = some (cs, r') →
      ∀ nv ∈ gps, ∃ tn, normalize paths nv.2 = some tn ∧ r' nv.1 = some tn := by
  intro gps
  induction gps with
  | nil => intro r cs r' _ _ nv hnv; simp at hnv
  | cons hd rest ih =>
    intro r cs r' hnd h nv hnv
    obtain ⟨n, v⟩ := hd
    simp only [List.map_cons, List.nodup_cons] at hnd
    simp only [syncAll] at h
    cases hso : syncOne paths r n v with
    | none => simp only [hso] at h; exact Option.noConfusion h
    | some cmds0 =>
      simp only [hso] at h
      cases hrec : syncAll paths queue rest (applyCmds queue cmds0 r) with
      | none => simp only [hrec] at h; exact Option.noConfusion h
      | some pr =>
        obtain ⟨cs', r''⟩ := pr
        simp only [hrec, Option.some.injEq, Prod.mk.injEq] at h
        rcases List.mem_cons.mp hnv with he | hm
        · subst he
          obtain ⟨tn, htn⟩ : ∃ tn, normalize paths v = some tn := by
            unfold syncOne at hso
            cases hnv2 : normalize paths v with
            | none => rw [hnv2] at hso; simp at hso
            | some tn => exact ⟨tn, rfl⟩
          refine ⟨tn, htn, ?_⟩
          have h1 : (applyCmds queue cmds0 r) n = some tn :=
            syncOne_apply_self paths queue r n v tn cmds0 htn hso
          have h2 := syncAll_preserves_other paths queue rest
            (applyCmds queue cmds0 r) cs' r'' n hrec hnd.1
          rw [← h.2, h2, h1]
        · obtain ⟨tn, htn, hrtn⟩ := ih (applyCmds queue cmds0 r) cs' r'' hnd.2 hrec nv hm
          exact ⟨tn, htn, by rw [← h.2]; exact hrtn⟩

/-- A sync run over playlists whose remote contents already equal their
normalized values issues no commands and leaves the remote unchanged. -/
theorem syncAll_noop (paths queue : List String) :
    ∀ (gps : List (String × PValue)) (r : Remote),
      (∀ nv ∈ gps, ∃ tn, normalize paths nv.2 = some tn ∧ r nv.1 = some tn) →
      syncAll paths queue gps r = some ([], r) := by
  intro gps
  induction gps with
  | nil => intro r _; rfl
  | cons nv rest ih =>
    intro r hall
    obtain ⟨n, v⟩ := nv
    obtain ⟨tn, hn, hr⟩ := hall (n, v) (List.mem_cons_self _ _)
    have h1 : syncOne paths r n v = some [] := syncOne_noop paths r n v tn hn hr
    have h2 : applyCmds queue [] r = r := rfl
    simp only [syncAll, h1, h2]
    rw [ih r (fun nv' hnv' => hall nv' (List.mem_cons_of_mem _ hnv'))]
    rfl

/-- **C3**: the sync body first normalizes the value — an unordered set
is sorted ascending by Track Index and translated to paths, an ordered
sequence is translated in the given order — and then decides: absent
remotely with an empty normalized sequence, it issues
create-then-clear; differing element-by-element from the remote
contents, it issues one batch that clears the playlist if it existed and
appends each path in order; equal to the remote contents, it issues no
mutation. -/
theorem sync_decision_structure (paths : List String) (name : String) (v : PValue)
    (tn : List String) (s : Finset ℕ) (l : List ℕ) (r1 r2 r3 : Remote)
    (h : normalize paths v = some tn)
    (h1 : r1 name = none) (h1e : tn = [])
    (h2 : tn ≠ (r2 name).getD [])
    (h3 : r3 name = some tn) :
    normalize paths (PValue.unordered s) = translate paths (s.sort (· ≤ ·)) ∧
    normalize paths (PValue.ordered l) = translate paths l ∧
    syncOne paths r1 name v = some [Cmd.save name, Cmd.playlistclear name] ∧
    syncOne paths r2 name v =
      some ((if (r2 name).isSome then [Cmd.playlistclear name] else []) ++
        tn.map (Cmd.playlistadd name)) ∧
    syncOne paths r3 name v = some [] := by
  refine ⟨rfl, rfl, ?_, ?_, ?_⟩
  · simp [syncOne, h, h1, h1e]
  · cases hr2 : r2 name with
    | none =>
      rw [hr2] at h2
      simp only [Option.getD_none] at h2
      simp [syncOne, h, hr2, h2]
    | some old =>
      rw [hr2] at h2
      simp only [Option.getD_some] at h2
      simp [syncOne, h, hr2, h2]
  · simp [syncOne, h, h3]

/-- Witness for **C3**: one track `"p0"`, value the empty ordered
sequence, against a remote without `"a"`, a remote storing `["x"]`
under `"a"`, and a remote storing `[]` under `"a"`. -/
theorem sync_decision_structure_witness :
    normalize ["p0"] (PValue.ordered []) = some [] ∧
    remoteNone "a" = none ∧ ([] : List String) ≠ (remoteX "a").getD [] ∧
    remoteEmptyA "a" = some [] ∧
    (normalize ["p0"] (PValue.unordered {0}) =
       translate ["p0"] (Finset.sort (· ≤ ·) {0}) ∧
     normalize ["p0"] (PValue.ordered [0]) = translate ["p0"] [0] ∧
     syncOne ["p0"] remoteNone "a" (PValue.ordered []) =
       some [Cmd.save "a", Cmd.playlistclear "a"] ∧
     syncOne ["p0"] remoteX "a" (PValue.ordered []) =
       some ((if (remoteX "a").isSome then [Cmd.playlistclear "a"] else []) ++
         List.map (Cmd.playlistadd "a") []) ∧
     syncOne ["p0"] remoteEmptyA "a" (PValue.ordered []) = some []) :=
  ⟨rfl, rfl, by decide, rfl,
   sync_decision_structure ["p0"] "a" (PValue.ordered []) [] {0} [0]
     remoteNone remoteX remoteEmptyA rfl rfl rfl (by decide) rfl⟩

/-- **C7**: running the sync engine twice on the same generated
playlists, with the first run's commands applied to the remote and no
other changes, makes the second run issue zero commands (including the
create-then-clear case: an empty playlist created by the first run is
seen as existing and equal).  The play queue may even differ between the
runs, since the second run never issues `save`. -/
theorem sync_idempotent (paths queue queue2 : List String)
    (gps : List (String × PValue)) (r : Remote) (cmds : List Cmd) (r' : Remote)
    (hnd : (gps.map Prod.fst).Nodup)
    (h : syncAll paths queue gps r = some (cmds, r')) :
    syncAll paths queue2 gps r' = some ([], r') :=
  syncAll_noop paths queue2 gps r'
    (syncAll_run_establishes paths queue gps r cmds r' hnd h)

/-- The remote state after the first witness sync run. -/
def remoteAfterRun : Remote :=
  applyCmds [] [Cmd.playlistadd "a" "p0", Cmd.save "b", Cmd.playlistclear "b"] remoteNone

/-- Witness for **C7**: two generated playlists — `"a"` an ordered
sequence `[0]` (appended as `p0`), `"b"` an empty set (created then
cleared) — synced against an empty remote; the second run issues
nothing. -/
theorem sync_idempotent_witness :
    ([("a", PValue.ordered [0]), ("b", PValue.ordered [])].map Prod.fst).Nodup ∧
    syncAll ["p0"] [] [("a", PValue.ordered [0]), ("b", PValue.ordered [])] remoteNone =
      some ([Cmd.playlistadd "a" "p0", Cmd.save "b", Cmd.playlistclear "b"], remoteAfterRun) ∧
    syncAll ["p0"] ["q"] [("a", PValue.ordered [0]), ("b", PValue.ordered [])] remoteAfterRun =
      some ([], remoteAfterRun) :=
  ⟨by decide, rfl,
   sync_idempotent ["p0"] [] ["q"] [("a", PValue.ordered [0]), ("b", PValue.ordered [])]
     remoteNone [Cmd.playlistadd "a" "p0", Cmd.save "b", Cmd.playlistclear "b"]
     remoteAfterRun (by decide) rfl⟩

end Mpdspl
